import Mathlib

/-!
Shallow embedding of `sea_norm.sean` (src/sea_norm/sea_norm.py), the
normalized superposed epoch analysis of a time-indexed table.

Timestamps and data values are modelled as rationals (the code works on
datetimes converted to elapsed seconds, and on float data).  The one place
where IEEE float semantics matters to the claims is the per-phase time
normalization `(t_norm - p_min) / (p_max - p_min)`, whose divisor can be
zero; division is therefore modelled on an IEEE-style value type `FVal`
(finite rational, NaN, +inf, -inf) with NaN/inf produced exactly when a
float division by zero would produce them, and with all comparisons false
on non-finite values, as in IEEE.
-/

/-- IEEE-style value: a finite rational or one of the non-finite floats. -/
inductive FVal where
  | finite (q : ℚ)
  | nan
  | posInf
  | negInf
deriving DecidableEq

/-- Float division of finite values: `a / b`, with the IEEE rules for a zero
divisor (`0/0 = NaN`, `a/0 = ±inf` by the sign of `a`). -/
def fdiv (a b : ℚ) : FVal :=
  if b = 0 then
    if a = 0 then FVal.nan
    else if 0 < a then FVal.posInf
    else FVal.negInf
  else FVal.finite (a / b)

/-- A row of the analysed table `se_data`: a timestamp (seconds) and the
values of the selected data columns, in column order. -/
structure Row where
  t : ℚ
  vals : List ℚ
deriving DecidableEq

instance : Inhabited Row := ⟨⟨0, []⟩⟩

/-- A row of a normalized phase window: the original row plus the `t_norm`
column added by `phase.assign(t_norm=t_norm)`. -/
structure NRow where
  row : Row
  tnorm : FVal
deriving DecidableEq

/-- `se_data.loc[a:b]`: pandas label slicing on a (sorted) time index keeps
every row whose timestamp lies in the closed interval `[a, b]`. -/
def locSlice (df : List Row) (a b : ℚ) : List Row :=
  df.filter (fun r => decide (a ≤ r.t) && decide (r.t ≤ b))

/-- The body of the per-phase normalization (sea_norm.py lines 224-230):
`t_norm = phase.index - phase.index[0]` (elapsed seconds),
`p_min, p_max = t_norm[0], t_norm[-1]`,
`t_norm = (t_norm - p_min) / (p_max - p_min)`, then the phase rows are
returned with `t_norm` assigned as an extra column. -/
def normalizePhase (phase : List Row) : List NRow :=
  let tn := phase.map (fun r => r.t - phase.headI.t)
  let pmin := tn.headI
  let pmax := tn.getLastD 0
  (phase.zip (tn.map (fun x => fdiv (x - pmin) (pmax - pmin)))).map
    (fun p => ⟨p.1, p.2⟩)

/-- The event loop (sea_norm.py lines 198-231).  `events` is the zip of the
equal-length arrays `starts, epochs, ends`; `idx` is the running event index
(the loop is `for event in range(len(starts))`).  For each event the two
phase windows are sliced; if either is empty the event is skipped and a
diagnostic naming the event index recorded (`print` at line 213), otherwise
both normalized windows are appended to the phase storages.  Returns
`(phase1_dfs, phase2_dfs, diagnostics)`. -/
def eventLoop (df : List Row) : List (ℚ × ℚ × ℚ) → ℕ →
    List (List NRow) × List (List NRow) × List ℕ
  | [], _ => ([], [], [])
  | ev :: rest, idx =>
    let r := eventLoop df rest (idx + 1)
    let phase1 := locSlice df ev.1 ev.2.1
    let phase2 := locSlice df ev.2.1 ev.2.2
    if phase1.isEmpty || phase2.isEmpty then
      (r.1, r.2.1, idx :: r.2.2)
    else
      (normalizePhase phase1 :: r.1, normalizePhase phase2 :: r.2.1, r.2.2)

/-- `np.linspace(a, b, n)`: `n` evenly spaced samples from `a` to `b`
inclusive (step `(b - a) / (n - 1)`); `[]` for `n = 0`, `[a]` for `n = 1`. -/
def linspace (a b : ℚ) (n : ℕ) : List ℚ :=
  if n = 0 then []
  else if n = 1 then [a]
  else (List.range n).map (fun i : ℕ => a + (b - a) * (i : ℚ) / ((n : ℚ) - 1))

/-- `np.arange(a, b, step)` for a positive step: values `a + k * step`
for `k = 0, 1, ...` while they stay strictly below `b`
(`⌈(b - a) / step⌉` of them). -/
def arange (a b step : ℚ) : List ℚ :=
  (List.range (Int.toNat ⌈(b - a) / step⌉)).map (fun k : ℕ => a + (k : ℚ) * step)

/-- `arr.max()` on a numpy array: fold of the binary maximum over the
elements (the empty case never occurs in the code paths modelled; `0` is a
sentinel). -/
def npMax (l : List ℚ) : ℚ :=
  match l with
  | [] => 0
  | x :: xs => xs.foldl max x

/-- `x1bins = x1_edges[0:-1]` for `x1_edges = np.linspace(0, 1, n)`
(sea_norm.py lines 242-246). -/
def xbins (n : ℕ) : List ℚ :=
  (linspace 0 1 n).dropLast

/-- Phase-1 part of the output time axis (sea_norm.py line 262):
`(x1bins - x1bins.max() - x1_spacing) / x1_spacing` with
`x1_spacing = 1 / x_dimensions[0]`. -/
def tAxis1 (n : ℕ) : List ℚ :=
  let s : ℚ := 1 / (n : ℚ)
  (xbins n).map (fun x => (x - npMax (xbins n) - s) / s)

/-- Phase-2 part of the output time axis (sea_norm.py line 263):
`x2bins / x2_spacing` with `x2_spacing = 1 / x_dimensions[1]`. -/
def tAxis2 (n : ℕ) : List ℚ :=
  let s : ℚ := 1 / (n : ℚ)
  (xbins n).map (fun x => x / s)

/-- The combined output time axis `t_norm` (sea_norm.py lines 262-263):
phase-1 part concatenated with phase-2 part. -/
def tNormAxis (n1 n2 : ℕ) : List ℚ :=
  tAxis1 n1 ++ tAxis2 n2

/-- `np.nanmean` on NaN-free data: the arithmetic mean, NaN on an empty
sample. -/
def npNanmean (l : List ℚ) : FVal :=
  if l.isEmpty then FVal.nan else FVal.finite (l.sum / (l.length : ℚ))

/-- `np.nanpercentile(l, p)` on NaN-free data with the default linear
interpolation: sort, take `h = (p/100) * (n-1)`, interpolate between the
values at `⌊h⌋` and `⌊h⌋ + 1`; NaN on an empty sample. -/
def npNanpercentile (l : List ℚ) (p : ℚ) : FVal :=
  match l with
  | [] => FVal.nan
  | _ =>
    let s := l.insertionSort (· ≤ ·)
    let h : ℚ := p / 100 * ((l.length : ℚ) - 1)
    let i : ℕ := (Rat.floor h).toNat
    let lo := s.getD i 0
    let hi := s.getD (i + 1) lo
    FVal.finite (lo + (h - (i : ℚ)) * (hi - lo))

/-- `lq_nan = lambda stat: np.nanpercentile(stat, 25)` (sea_norm.py line 179). -/
def lqNan (l : List ℚ) : FVal := npNanpercentile l 25

/-- `uq_nan = lambda stat: np.nanpercentile(stat, 75)` (sea_norm.py line 180). -/
def uqNan (l : List ℚ) : FVal := npNanpercentile l 75

/-- `np.nanmedian`, which on the default linear interpolation equals the
50th percentile. -/
def npNanmedian (l : List ℚ) : FVal := npNanpercentile l 50

/-- A statistic value as stored in the `seastats` dictionary: the builtin
string `"count"` or a callable reducer (the only string the module itself
uses is `"count"`). -/
inductive StatVal where
  | strCount
  | fn (f : List ℚ → FVal)

/-- Applying one statistic to the values of one bin, as
`scipy.stats.binned_statistic` does: `"count"` counts the samples in the
bin, a callable is applied to the bin's values. -/
def applyStat : StatVal → List ℚ → FVal
  | StatVal.strCount, l => FVal.finite ((l.length : ℕ) : ℚ)
  | StatVal.fn f, l => f l

/-- The default statistics dictionary (sea_norm.py lines 182-188). -/
def defaultStats : List (String × StatVal) :=
  [("mean", StatVal.fn npNanmean),
   ("median", StatVal.fn npNanmedian),
   ("lowq", StatVal.fn lqNan),
   ("upq", StatVal.fn uqNan),
   ("cnt", StatVal.strCount)]

/-- The `seastats` argument: `False` (the default), a dict, or some other
(e.g. list) value. -/
inductive SeastatsArg where
  | falseArg
  | dictArg (d : List (String × StatVal))
  | listArg (l : List (List ℚ → FVal))

/-- Resolution of `seastats` (sea_norm.py lines 176-188):
`if seastats and isinstance(seastats, dict): stat_vals = seastats` else the
defaults.  A non-dict value (whatever its truthiness) and an empty (falsy)
dict both fall to the defaults. -/
def resolveStats (a : SeastatsArg) : List (String × StatVal) :=
  match a with
  | SeastatsArg.dictArg d => if d.isEmpty then defaultStats else d
  | _ => defaultStats

/-- Bin membership of an x value for bin `i` of `edges`, as in
`scipy.stats.binned_statistic`: bins are `[e_i, e_{i+1})`, except the last
bin which is closed on both ends.  All comparisons are false on non-finite
values (IEEE), so NaN and ±inf fall in no bin. -/
def fvalInBin (edges : List ℚ) (i : ℕ) (x : FVal) : Bool :=
  match x with
  | FVal.finite q =>
    match edges.get? i, edges.get? (i + 1) with
    | some lo, some hi =>
      decide (lo ≤ q) &&
        (decide (q < hi) || (decide (i + 2 = edges.length) && decide (q ≤ hi)))
    | _, _ => false
  | _ => false

/-- Value of column `i` of a normalized row (`0` sentinel out of range; the
code would raise there, and the modelled inputs always have the column). -/
def colValue (nr : NRow) (i : ℕ) : ℚ :=
  nr.row.vals.getD i 0

/-- One phase's `scipy.stats.binned_statistic` output for one data column
(sea_norm.py lines 307-312): for each of the `len(edges) - 1` bins, the
statistic applied to the column values of the pooled samples whose `t_norm`
falls in the bin. -/
def binnedStat1d (pdata : List NRow) (edges : List ℚ) (colIdx : ℕ)
    (sv : StatVal) : List FVal :=
  (List.range (edges.length - 1)).map (fun b =>
    applyStat sv
      ((pdata.filter (fun nr => fvalInBin edges b nr.tnorm)).map
        (fun nr => colValue nr colIdx)))

/-- One phase's `scipy.stats.binned_statistic_2d` column slice
`pstat[colIdx, :, yb]` (sea_norm.py lines 282-295): for each time bin, the
statistic applied to the column values of the pooled samples whose `t_norm`
falls in the time bin and whose y-column value falls in y-bin `yb`. -/
def binnedStat2dCol (pdata : List NRow) (xedges yedges : List ℚ)
    (yIdx colIdx yb : ℕ) (sv : StatVal) : List FVal :=
  (List.range (xedges.length - 1)).map (fun b =>
    applyStat sv
      ((pdata.filter (fun nr =>
          fvalInBin xedges b nr.tnorm &&
            fvalInBin yedges yb (FVal.finite (colValue nr yIdx)))).map
        (fun nr => colValue nr colIdx)))

/-- The zero-padded 3-digit y-bin suffix `f"_{j:03d}"` (without the
leading underscore). -/
def pad3 (j : ℕ) : String :=
  let s := toString j
  String.mk (List.replicate (3 - s.length) '0') ++ s

/-- The 1D result columns (sea_norm.py lines 279, 306-322): for each
statistic, for each analysed column, the concatenation of the phase-1 and
phase-2 binned statistics, named `col + "_" + stat`. -/
def seanColumns1d (statVals : List (String × StatVal)) (cols : List String)
    (p1data p2data : List NRow) (x1e x2e : List ℚ) :
    List (String × List FVal) :=
  statVals.flatMap (fun sv =>
    cols.enum.map (fun ic =>
      (ic.2 ++ "_" ++ sv.1,
        binnedStat1d p1data x1e ic.1 sv.2 ++ binnedStat1d p2data x2e ic.1 sv.2)))

/-- The 2D result columns (sea_norm.py lines 279-303): for each statistic,
for each analysed column, for each y bin, the concatenation of the phase-1
and phase-2 column slices, named `col + "_" + stat + "_" + jjj`. -/
def seanColumns2d (statVals : List (String × StatVal)) (cols : List String)
    (p1data p2data : List NRow) (x1e x2e ye : List ℚ) (yIdx : ℕ) :
    List (String × List FVal) :=
  statVals.flatMap (fun sv =>
    cols.enum.flatMap (fun ic =>
      (List.range (ye.length - 1)).map (fun j =>
        (ic.2 ++ "_" ++ sv.1 ++ "_" ++ pad3 j,
          binnedStat2dCol p1data x1e ye yIdx ic.1 j sv.2 ++
            binnedStat2dCol p2data x2e ye yIdx ic.1 j sv.2))))

/-- Metadata for the second dimension of a 2D analysis
(`y_rtn`, sea_norm.py line 332). -/
structure YMeta where
  ymin : ℚ
  ymax : ℚ
  ybin : ℚ
  edges : List ℚ

/-- The metadata record (`meta`, sea_norm.py lines 330-335). -/
structure Meta where
  seaCols : List String
  stats : List (String × StatVal)
  yMeta : Option YMeta

/-- The returned analysis: the `SEAdat` DataFrame (its `t_norm` index and
its named columns, in insertion order) plus the metadata. -/
structure SEAOut where
  index : List ℚ
  columns : List (String × List FVal)
  meta : Meta

/-- The `sean` pipeline after column selection (sea_norm.py lines 134-335)
on the selected data `df` (rows carry the selected columns' values, named
by `cols`, plus - for 2D - the y column at position `yIdx`).  `events` is
the zip of the equal-length `starts, epochs, ends` arrays; `n1, n2` are
`x_dimensions`.  2D mode is active when the (post-selection) `y_col` and
`y_dimensions` are both set, modelled by `yIdx` and `yDims`.
`pd.concat` of an empty list of collected frames raises
`ValueError("No objects to concatenate")`, modelled by `Except.error`. -/
def sean (df : List Row) (events : List (ℚ × ℚ × ℚ)) (n1 n2 : ℕ)
    (cols : List String) (seastats : SeastatsArg)
    (yIdx : Option ℕ) (yDims : Option (ℚ × ℚ × ℚ)) : Except String SEAOut :=
  let statVals := resolveStats seastats
  let r := eventLoop df events 0
  if r.1.isEmpty then Except.error ("No objects to concatenate")
  else if r.2.1.isEmpty then Except.error ("No objects to concatenate")
  else
    let p1data := r.1.flatten
    let p2data := r.2.1.flatten
    let x1e := linspace 0 1 n1
    let x2e := linspace 0 1 n2
    match yIdx, yDims with
    | some yi, some yd =>
      let ye := arange yd.1 (yd.2.1 + yd.2.2) yd.2.2
      Except.ok
        ⟨tNormAxis n1 n2,
          seanColumns2d statVals cols p1data p2data x1e x2e ye yi,
          ⟨cols, statVals, some ⟨yd.1, yd.2.1, yd.2.2, ye⟩⟩⟩
    | _, _ =>
      Except.ok
        ⟨tNormAxis n1 n2,
          seanColumns1d statVals cols p1data p2data x1e x2e,
          ⟨cols, statVals, none⟩⟩

/-- Whether a call returned normally (`Except.ok`) rather than raising. -/
def isOkE {α : Type} : Except String α → Bool
  | Except.ok _ => true
  | Except.error _ => false

/-- Observation for the row-count property: on a normal return, the index
and every column of the result table have exactly `m` entries; vacuous on a
raise. -/
def resultHasRowCount (x : Except String SEAOut) (m : ℕ) : Bool :=
  match x with
  | Except.ok o => (o.index.length == m) && o.columns.all (fun c => c.2.length == m)
  | Except.error _ => true

/-- Observation: the statistics mapping reported in the returned metadata
(`meta["stats"]`), when the call returns normally. -/
def metaStatsOf : Except String SEAOut → Option (List (String × StatVal))
  | Except.ok o => some o.meta.stats
  | Except.error _ => none

/-- Whether a normalized time is a finite value in the closed interval
`[0, 1]`. -/
def inUnitInterval : FVal → Bool
  | FVal.finite q => decide (0 ≤ q) && decide (q ≤ 1)
  | _ => false

/-- The `cols` argument of `sean`: `False` (the default), a string, or a
list of column names. -/
inductive ColsArg where
  | falseC
  | strC (s : String)
  | listC (l : List String)
deriving DecidableEq

/-- Python truthiness of the `cols` argument (`False`, the empty string and
the empty list are falsy). -/
def truthyCols : ColsArg → Bool
  | ColsArg.falseC => false
  | ColsArg.strC s => !(s == "")
  | ColsArg.listC l => !l.isEmpty

/-- The `y_col` argument: `False` (the default) or a column name. -/
inductive YArg where
  | falseY
  | someY (s : String)
deriving DecidableEq

/-- Python truthiness of `y_col` (`False` and the empty string are falsy). -/
def truthyY : YArg → Bool
  | YArg.falseY => false
  | YArg.someY s => !(s == "")

/-- The `y_dimensions` argument: `False` (the default) or the (nonempty,
hence truthy) list `[ymin, ymax, yspacing]`. -/
inductive YDimsArg where
  | falseD
  | dims (ymin ymax ysp : ℚ)
deriving DecidableEq

/-- Python truthiness of `y_dimensions`. -/
def truthyDims : YDimsArg → Bool
  | YDimsArg.falseD => false
  | YDimsArg.dims _ _ _ => true

/-- The value of the `y_col` variable after the column-selection branches
(sea_norm.py lines 146-170): unchanged when `data` is a Series (line 146)
or when `cols` is truthy (line 149), and reset to `False` in the `else`
branch (line 170). -/
def yColAfterSelect (isSeries : Bool) (cols : ColsArg) (yCol : YArg) : YArg :=
  if isSeries then yCol
  else if truthyCols cols then yCol
  else YArg.falseY

/-- The `sea2d` flag (sea_norm.py lines 254-259): `y_col and y_dimensions`
evaluated after the column-selection branches have run. -/
def sea2dFlag (isSeries : Bool) (cols : ColsArg) (yCol : YArg)
    (yDims : YDimsArg) : Bool :=
  truthyY (yColAfterSelect isSeries cols yCol) && truthyDims yDims

/-! ### Helper lemmas -/

theorem linspace_length (a b : ℚ) (n : ℕ) : (linspace a b n).length = n := by
  unfold linspace
  split
  · simp [*]
  · split
    · simp [*]
    · rw [List.length_map, List.length_range]

theorem linspace_zero_one (n : ℕ) (hn : 2 ≤ n) :
    linspace 0 1 n = (List.range n).map (fun i : ℕ => (i : ℚ) / ((n : ℚ) - 1)) := by
  unfold linspace
  rw [if_neg (by omega), if_neg (by omega)]
  refine List.map_congr_left (fun i _ => ?_)
  ring

theorem xbins_eq (n : ℕ) (hn : 2 ≤ n) :
    xbins n = (List.range (n - 1)).map (fun i : ℕ => (i : ℚ) / ((n : ℚ) - 1)) := by
  unfold xbins
  rw [linspace_zero_one n hn]
  obtain ⟨m, rfl⟩ : ∃ m, n = m + 1 := ⟨n - 1, by omega⟩
  rw [List.range_succ, List.map_append]
  simp

theorem le_foldl_max (a : ℚ) (l : List ℚ) : a ≤ l.foldl max a := by
  induction l generalizing a with
  | nil => exact le_refl a
  | cons b t ih => exact le_trans (le_max_left a b) (ih (max a b))

theorem le_foldl_max_of_mem (x a : ℚ) (l : List ℚ) (h : x ∈ l) :
    x ≤ l.foldl max a := by
  induction l generalizing a with
  | nil => cases h
  | cons b t ih =>
    rcases List.mem_cons.mp h with rfl | hx
    · exact le_trans (le_max_right a x) (le_foldl_max _ t)
    · exact ih _ hx

theorem foldl_max_choice (a : ℚ) (l : List ℚ) :
    l.foldl max a = a ∨ l.foldl max a ∈ l := by
  induction l generalizing a with
  | nil => exact Or.inl rfl
  | cons b t ih =>
    rcases ih (max a b) with h | h
    · rcases max_choice a b with hm | hm
      · exact Or.inl (by rw [List.foldl_cons, h, hm])
      · exact Or.inr (by
          rw [List.foldl_cons, h, hm]
          exact List.mem_cons_self b t)
    · exact Or.inr (List.mem_cons_of_mem b h)

theorem le_npMax_of_mem (x : ℚ) (l : List ℚ) (h : x ∈ l) : x ≤ npMax l := by
  match l with
  | [] => cases h
  | y :: ys =>
    rcases List.mem_cons.mp h with rfl | hx
    · exact le_foldl_max x ys
    · exact le_foldl_max_of_mem x y ys hx

theorem npMax_mem (l : List ℚ) (h : l ≠ []) : npMax l ∈ l := by
  match l with
  | [] => exact absurd rfl h
  | y :: ys =>
    show ys.foldl max y ∈ y :: ys
    rcases foldl_max_choice y ys with hc | hc
    · rw [hc]
      exact List.mem_cons_self y ys
    · exact List.mem_cons_of_mem y hc

theorem npMax_xbins (n : ℕ) (hn : 2 ≤ n) :
    npMax (xbins n) = ((n : ℚ) - 2) / ((n : ℚ) - 1) := by
  have hcast : ((n - 2 : ℕ) : ℚ) = (n : ℚ) - 2 := by
    push_cast [Nat.cast_sub (by omega : 2 ≤ n)]
    ring
  have hden : (0 : ℚ) < (n : ℚ) - 1 := by
    have h2 : (2 : ℚ) ≤ (n : ℚ) := by exact_mod_cast hn
    linarith
  rw [xbins_eq n hn]
  have hmem : ((n : ℚ) - 2) / ((n : ℚ) - 1) ∈
      (List.range (n - 1)).map (fun i : ℕ => (i : ℚ) / ((n : ℚ) - 1)) := by
    refine List.mem_map.mpr ⟨n - 2, List.mem_range.mpr (by omega), ?_⟩
    rw [hcast]
  have hne : (List.range (n - 1)).map (fun i : ℕ => (i : ℚ) / ((n : ℚ) - 1)) ≠ [] := by
    simp only [ne_eq, List.map_eq_nil_iff, List.range_eq_nil]
    omega
  refine le_antisymm ?_ (le_npMax_of_mem _ _ hmem)
  rcases List.mem_map.mp (npMax_mem _ hne) with ⟨k, hk, hkv⟩
  rw [← hkv]
  have hk1 : k < n - 1 := List.mem_range.mp hk
  have hk2 : (k : ℚ) ≤ (n : ℚ) - 2 := by
    rw [← hcast]
    exact_mod_cast (by omega : k ≤ n - 2)
  exact div_le_div_of_nonneg_right hk2 hden.le

theorem tAxis1_eq (n : ℕ) (hn : 2 ≤ n) :
    tAxis1 n = (List.range (n - 1)).map
      (fun k : ℕ => (n : ℚ) * ((k : ℚ) - ((n : ℚ) - 2)) / ((n : ℚ) - 1) - 1) := by
  have h2 : (2 : ℚ) ≤ (n : ℚ) := by exact_mod_cast hn
  have hc0 : (n : ℚ) ≠ 0 := by linarith
  have hc1 : (n : ℚ) - 1 ≠ 0 := by linarith
  unfold tAxis1
  rw [npMax_xbins n hn, xbins_eq n hn, List.map_map]
  refine List.map_congr_left (fun k _ => ?_)
  simp only [Function.comp]
  field_simp
  ring

theorem tAxis2_eq (n : ℕ) (hn : 2 ≤ n) :
    tAxis2 n = (List.range (n - 1)).map
      (fun k : ℕ => (k : ℚ) * (n : ℚ) / ((n : ℚ) - 1)) := by
  have h2 : (2 : ℚ) ≤ (n : ℚ) := by exact_mod_cast hn
  have hc0 : (n : ℚ) ≠ 0 := by linarith
  have hc1 : (n : ℚ) - 1 ≠ 0 := by linarith
  unfold tAxis2
  rw [xbins_eq n hn, List.map_map]
  refine List.map_congr_left (fun k _ => ?_)
  simp only [Function.comp]
  field_simp

theorem tAxis1_length (n : ℕ) : (tAxis1 n).length = n - 1 := by
  unfold tAxis1 xbins
  rw [List.length_map, List.length_dropLast, linspace_length]

theorem tAxis2_length (n : ℕ) : (tAxis2 n).length = n - 1 := by
  unfold tAxis2 xbins
  rw [List.length_map, List.length_dropLast, linspace_length]

theorem tAxis1_neg (n : ℕ) (hn : 2 ≤ n) : ∀ q ∈ tAxis1 n, q < 0 := by
  have h2 : (2 : ℚ) ≤ (n : ℚ) := by exact_mod_cast hn
  intro q hq
  rw [tAxis1_eq n hn] at hq
  rcases List.mem_map.mp hq with ⟨k, hk, rfl⟩
  have hk1 : k < n - 1 := List.mem_range.mp hk
  have hkc : (k : ℚ) ≤ (n : ℚ) - 2 := by
    have : ((k : ℕ) : ℚ) ≤ ((n - 2 : ℕ) : ℚ) := by exact_mod_cast (by omega : k ≤ n - 2)
    calc (k : ℚ) ≤ ((n - 2 : ℕ) : ℚ) := this
    _ = (n : ℚ) - 2 := by push_cast [Nat.cast_sub (by omega : 2 ≤ n)]; ring
  have hnum : (n : ℚ) * ((k : ℚ) - ((n : ℚ) - 2)) ≤ 0 :=
    mul_nonpos_of_nonneg_of_nonpos (by linarith) (by linarith)
  have hdiv : (n : ℚ) * ((k : ℚ) - ((n : ℚ) - 2)) / ((n : ℚ) - 1) ≤ 0 :=
    div_nonpos_of_nonpos_of_nonneg hnum (by linarith)
  linarith

theorem tAxis2_nonneg (n : ℕ) (hn : 2 ≤ n) : ∀ q ∈ tAxis2 n, 0 ≤ q := by
  have h2 : (2 : ℚ) ≤ (n : ℚ) := by exact_mod_cast hn
  intro q hq
  rw [tAxis2_eq n hn] at hq
  rcases List.mem_map.mp hq with ⟨k, _, rfl⟩
  exact div_nonneg (mul_nonneg (Nat.cast_nonneg k) (by linarith)) (by linarith)

theorem tAxis2_head (n : ℕ) (hn : 2 ≤ n) : (tAxis2 n).head? = some 0 := by
  rw [tAxis2_eq n hn]
  obtain ⟨m, hm⟩ : ∃ m, n - 1 = m + 1 := ⟨n - 2, by omega⟩
  rw [hm, List.range_succ_eq_map]
  simp

theorem tNormAxis_pairwise (n1 n2 : ℕ) (h1 : 2 ≤ n1) (h2 : 2 ≤ n2) :
    List.Pairwise (· < ·) (tNormAxis n1 n2) := by
  have h2q : (2 : ℚ) ≤ (n1 : ℚ) := by exact_mod_cast h1
  have h2q2 : (2 : ℚ) ≤ (n2 : ℚ) := by exact_mod_cast h2
  unfold tNormAxis
  rw [List.pairwise_append]
  refine ⟨?_, ?_, ?_⟩
  · rw [tAxis1_eq n1 h1, List.pairwise_map]
    refine (List.pairwise_lt_range _).imp ?_
    intro a b hab
    have habq : (a : ℚ) < (b : ℚ) := by exact_mod_cast hab
    have hden : (0 : ℚ) < (n1 : ℚ) - 1 := by linarith
    have hpos : (0 : ℚ) < (n1 : ℚ) := by linarith
    have : (n1 : ℚ) * ((a : ℚ) - ((n1 : ℚ) - 2)) / ((n1 : ℚ) - 1) <
        (n1 : ℚ) * ((b : ℚ) - ((n1 : ℚ) - 2)) / ((n1 : ℚ) - 1) := by
      rw [div_lt_div_iff₀ hden hden]
      nlinarith [mul_pos (mul_pos hpos hden) (sub_pos.mpr habq)]
    linarith
  · rw [tAxis2_eq n2 h2, List.pairwise_map]
    refine (List.pairwise_lt_range _).imp ?_
    intro a b hab
    have habq : (a : ℚ) < (b : ℚ) := by exact_mod_cast hab
    have hden : (0 : ℚ) < (n2 : ℚ) - 1 := by linarith
    have hpos : (0 : ℚ) < (n2 : ℚ) := by linarith
    rw [div_lt_div_iff₀ hden hden]
    nlinarith [mul_pos (mul_pos hpos hden) (sub_pos.mpr habq)]
  · intro x hx y hy
    exact lt_of_lt_of_le (tAxis1_neg n1 h1 x hx) (tAxis2_nonneg n2 h2 y hy)

/-! ### Claim C1 -/

/-- C1 counterexample: the claim says the combined output time axis
consists of integer positions.  At `x_dimensions = [3, 3]` the axis is
`[-5/2, -1, 0, 3/2]`, which contains non-integer entries, because the bin
centers come from `linspace(0, 1, n)` (step `1/(n-1)`) while the divisor
`x_spacing` is `1/n`. -/
theorem claim1_counterexample :
    tNormAxis 3 3 = [-(5 / 2 : ℚ), -1, 0, 3 / 2] ∧
      (tNormAxis 3 3).all (fun q => q.den == 1) = false := by
  constructor
  · with_unfolding_all decide
  · with_unfolding_all decide

/-- C1 (amended): the combined output time axis is the concatenation of the
phase-1 bin centers mapped by `(x1_bins - max(x1_bins) - x1_spacing) / x1_spacing`
and the phase-2 bin centers mapped by `x2_bins / x2_spacing`; in closed
form the phase-1 positions are `n1*(k - (n1-2))/(n1-1) - 1` for
`k = 0..n1-2` (ending at `-1`) and the phase-2 positions are
`k*n2/(n2-1)` for `k = 0..n2-2` (starting at `0`) - consecutive positions
are spaced `n/(n-1)` apart, not 1, so they are not integers in general. -/
theorem claim1_amended (n1 n2 : ℕ) (h1 : 2 ≤ n1) (h2 : 2 ≤ n2) :
    tNormAxis n1 n2 =
      (List.range (n1 - 1)).map
        (fun k : ℕ => (n1 : ℚ) * ((k : ℚ) - ((n1 : ℚ) - 2)) / ((n1 : ℚ) - 1) - 1) ++
      (List.range (n2 - 1)).map
        (fun k : ℕ => (k : ℚ) * (n2 : ℚ) / ((n2 : ℚ) - 1)) := by
  unfold tNormAxis
  rw [tAxis1_eq n1 h1, tAxis2_eq n2 h2]

/-- C1 amended-claim witness at `x_dimensions = [3, 3]`. -/
theorem claim1_witness :
    (2 ≤ 3) ∧ tNormAxis 3 3 = [-(5 / 2 : ℚ), -1, 0, 3 / 2] :=
  ⟨by decide, (claim1_amended 3 3 (by decide) (by decide)).trans (by with_unfolding_all decide)⟩

/-! ### Claim C8 -/

/-- C8: for every valid input (`x_dimensions` entries at least 2) the
result table's index `tNormAxis` is strictly increasing, every phase-1
position is strictly negative, every phase-2 position is nonnegative, and
the first phase-2 position is exactly 0. -/
theorem claim8_index_monotone (n1 n2 : ℕ) (h1 : 2 ≤ n1) (h2 : 2 ≤ n2) :
    List.Pairwise (· < ·) (tNormAxis n1 n2) ∧
      (∀ q ∈ tAxis1 n1, q < 0) ∧
      (∀ q ∈ tAxis2 n2, 0 ≤ q) ∧
      (tAxis2 n2).head? = some 0 :=
  ⟨tNormAxis_pairwise n1 n2 h1 h2, tAxis1_neg n1 h1, tAxis2_nonneg n2 h2,
    tAxis2_head n2 h2⟩

/-- C8 witness at `x_dimensions = [3, 4]`. -/
theorem claim8_witness :
    (2 ≤ 3) ∧
      (List.Pairwise (· < ·) (tNormAxis 3 4) ∧
        (∀ q ∈ tAxis1 3, q < 0) ∧
        (∀ q ∈ tAxis2 4, 0 ≤ q) ∧
        (tAxis2 4).head? = some 0) :=
  ⟨by decide, claim8_index_monotone 3 4 (by decide) (by decide)⟩

/-! ### Claim C2 -/

/-- C2 counterexample: the claim says supplying both `y_col` and
`y_dimensions` always enables 2D mode, regardless of the other optional
parameters such as `cols`.  With `cols` left at its default `False` (and
DataFrame input), the `else` branch of the column selection resets
`y_col = False`, so the call runs in 1D mode even though both `y_col` and
`y_dimensions` were supplied (and truthy). -/
theorem claim2_counterexample :
    truthyY (YArg.someY "y") = true ∧
      truthyDims (YDimsArg.dims 0 10 5) = true ∧
      sea2dFlag false ColsArg.falseC (YArg.someY "y") (YDimsArg.dims 0 10 5) = false :=
  ⟨rfl, rfl, rfl⟩

/-- C2 (amended): a 2D analysis is flagged iff `y_col` and `y_dimensions`
are both supplied (truthy) AND additionally either `data` is a Series or
`cols` is supplied (truthy); when `cols` is omitted on DataFrame input,
`y_col` is discarded and the call silently proceeds as a 1D analysis
(still without raising). -/
theorem claim2_amended (isSeries : Bool) (cols : ColsArg) (yCol : YArg)
    (yDims : YDimsArg) :
    sea2dFlag isSeries cols yCol yDims =
      (truthyY yCol && truthyDims yDims && (isSeries || truthyCols cols)) := by
  unfold sea2dFlag yColAfterSelect
  cases isSeries with
  | true => simp
  | false =>
    cases h : truthyCols cols with
    | true => simp [h]
    | false => simp [h, truthyY]

/-! ### Claim C10 -/

/-- C10: a `seastats` argument that is not a dict (here: a list of reducer
functions) is silently ignored: the resolved statistics are the defaults
`{mean: nanmean, median: nanmedian, lowq: 25th, upq: 75th, cnt: count}`,
the whole call behaves exactly as if `seastats` had been left at `False`,
and the metadata's statistics mapping reports the defaults (never the
supplied value). -/
theorem claim10_nondict_seastats_ignored (df : List Row)
    (events : List (ℚ × ℚ × ℚ)) (n1 n2 : ℕ) (cols : List String)
    (yIdx : Option ℕ) (yDims : Option (ℚ × ℚ × ℚ)) (l : List (List ℚ → FVal)) :
    resolveStats (SeastatsArg.listArg l) = defaultStats ∧
      sean df events n1 n2 cols (SeastatsArg.listArg l) yIdx yDims =
        sean df events n1 n2 cols SeastatsArg.falseArg yIdx yDims ∧
      (metaStatsOf (sean df events n1 n2 cols (SeastatsArg.listArg l) yIdx yDims) =
          none ∨
        metaStatsOf (sean df events n1 n2 cols (SeastatsArg.listArg l) yIdx yDims) =
          some defaultStats) := by
  refine ⟨rfl, rfl, ?_⟩
  cases yIdx <;> cases yDims <;>
    simp only [sean] <;>
    cases h1 : (eventLoop df events 0).1.isEmpty <;>
    cases h2 : (eventLoop df events 0).2.1.isEmpty <;>
    simp [h1, h2, metaStatsOf] <;> rfl

/-! ### Row-count lemmas (for C3) -/

theorem tNormAxis_length (n1 n2 : ℕ) :
    (tNormAxis n1 n2).length = (n1 - 1) + (n2 - 1) := by
  unfold tNormAxis
  rw [List.length_append, tAxis1_length, tAxis2_length]

theorem binnedStat1d_length (pdata : List NRow) (edges : List ℚ) (colIdx : ℕ)
    (sv : StatVal) : (binnedStat1d pdata edges colIdx sv).length = edges.length - 1 := by
  unfold binnedStat1d
  rw [List.length_map, List.length_range]

theorem binnedStat2dCol_length (pdata : List NRow) (xedges yedges : List ℚ)
    (yIdx colIdx yb : ℕ) (sv : StatVal) :
    (binnedStat2dCol pdata xedges yedges yIdx colIdx yb sv).length =
      xedges.length - 1 := by
  unfold binnedStat2dCol
  rw [List.length_map, List.length_range]

theorem seanColumns1d_mem_length (sv : List (String × StatVal))
    (cols : List String) (p1 p2 : List NRow) (x1e x2e : List ℚ) :
    ∀ c ∈ seanColumns1d sv cols p1 p2 x1e x2e,
      c.2.length = (x1e.length - 1) + (x2e.length - 1) := by
  intro c hc
  unfold seanColumns1d at hc
  rcases List.mem_flatMap.mp hc with ⟨s, _, hc2⟩
  rcases List.mem_map.mp hc2 with ⟨ic, _, rfl⟩
  rw [List.length_append, binnedStat1d_length, binnedStat1d_length]

theorem seanColumns2d_mem_length (sv : List (String × StatVal))
    (cols : List String) (p1 p2 : List NRow) (x1e x2e ye : List ℚ) (yIdx : ℕ) :
    ∀ c ∈ seanColumns2d sv cols p1 p2 x1e x2e ye yIdx,
      c.2.length = (x1e.length - 1) + (x2e.length - 1) := by
  intro c hc
  unfold seanColumns2d at hc
  rcases List.mem_flatMap.mp hc with ⟨s, _, hc2⟩
  rcases List.mem_flatMap.mp hc2 with ⟨ic, _, hc3⟩
  rcases List.mem_map.mp hc3 with ⟨j, _, rfl⟩
  rw [List.length_append, binnedStat2dCol_length, binnedStat2dCol_length]

theorem resultHasRowCount_ok (idx : List ℚ) (colsL : List (String × List FVal))
    (m : Meta) (k : ℕ) (hidx : idx.length = k)
    (hcols : ∀ c ∈ colsL, c.2.length = k) :
    resultHasRowCount (Except.ok ⟨idx, colsL, m⟩) k = true := by
  simp only [resultHasRowCount, Bool.and_eq_true, beq_iff_eq, List.all_eq_true]
  exact ⟨hidx, hcols⟩

/-! ### Claim C3 -/

/-- C3: for every valid input (`x_dimensions = [n1, n2]` with both entries
at least 2), whenever the call returns a result table it has exactly
`(n1 - 1) + (n2 - 1)` rows: the dimensions are edge counts and each phase
contributes one fewer bin than requested (both the index and every data
column of the table have that many entries, in 1D and in 2D mode). -/
theorem claim3_row_count (df : List Row) (events : List (ℚ × ℚ × ℚ))
    (n1 n2 : ℕ) (cols : List String) (ss : SeastatsArg) (yIdx : Option ℕ)
    (yDims : Option (ℚ × ℚ × ℚ)) (h1 : 2 ≤ n1) (h2 : 2 ≤ n2) :
    resultHasRowCount (sean df events n1 n2 cols ss yIdx yDims)
      ((n1 - 1) + (n2 - 1)) = true := by
  have hx1 : (linspace 0 1 n1).length - 1 = n1 - 1 := by rw [linspace_length]
  have hx2 : (linspace 0 1 n2).length - 1 = n2 - 1 := by rw [linspace_length]
  cases yIdx <;> cases yDims <;>
    simp only [sean] <;>
    cases hE1 : (eventLoop df events 0).1.isEmpty <;>
    cases hE2 : (eventLoop df events 0).2.1.isEmpty <;>
    simp only [hE1, hE2, Bool.false_eq_true, if_true, if_false, reduceIte] <;>
    first
      | rfl
      | (refine resultHasRowCount_ok _ _ _ _ (tNormAxis_length n1 n2) ?_
         first
           | (intro c hc
              rw [seanColumns1d_mem_length _ _ _ _ _ _ c hc, hx1, hx2])
           | (intro c hc
              rw [seanColumns2d_mem_length _ _ _ _ _ _ _ _ c hc, hx1, hx2]))

/-- C3 witness: a concrete successful 1D call with `x_dimensions = [3, 3]`
(4 = 2 + 2 result rows). -/
theorem claim3_witness :
    (2 ≤ 3) ∧
      isOkE (sean [⟨0, [1]⟩, ⟨1, [2]⟩, ⟨2, [3]⟩, ⟨3, [4]⟩, ⟨4, [5]⟩]
        [(0, 2, 4)] 3 3 ["v"] (SeastatsArg.dictArg [("cnt", StatVal.strCount)])
        none none) = true ∧
      resultHasRowCount (sean [⟨0, [1]⟩, ⟨1, [2]⟩, ⟨2, [3]⟩, ⟨3, [4]⟩, ⟨4, [5]⟩]
        [(0, 2, 4)] 3 3 ["v"] (SeastatsArg.dictArg [("cnt", StatVal.strCount)])
        none none) 4 = true :=
  ⟨by decide, by with_unfolding_all decide,
    claim3_row_count [⟨0, [1]⟩, ⟨1, [2]⟩, ⟨2, [3]⟩, ⟨3, [4]⟩, ⟨4, [5]⟩]
      [(0, 2, 4)] 3 3 ["v"] (SeastatsArg.dictArg [("cnt", StatVal.strCount)])
      none none (by decide) (by decide)⟩

/-! ### Claim C9 -/

theorem eventLoop_all_skipped (df : List Row) (events : List (ℚ × ℚ × ℚ))
    (h : ∀ ev ∈ events, locSlice df ev.1 ev.2.1 = [] ∨ locSlice df ev.2.1 ev.2.2 = []) :
    ∀ k, (eventLoop df events k).1 = [] ∧ (eventLoop df events k).2.1 = [] := by
  induction events with
  | nil => intro k; exact ⟨rfl, rfl⟩
  | cons ev rest ih =>
    intro k
    have hev := h ev (List.mem_cons_self ev rest)
    have hrest := ih (fun e he => h e (List.mem_cons_of_mem ev he))
    have hcond : ((locSlice df ev.1 ev.2.1).isEmpty ||
        (locSlice df ev.2.1 ev.2.2).isEmpty) = true := by
      rcases hev with hev | hev <;> simp [hev]
    simp only [eventLoop, hcond, if_true]
    exact hrest (k + 1)

/-- C9: if no event survives the empty-phase check (every event has an
empty phase-1 or phase-2 window, which includes the case of an empty event
list), `sean` raises (`pd.concat` of the empty list of collected frames
fails with `ValueError: No objects to concatenate`) instead of returning an
empty result table. -/
theorem claim9_all_skipped_raises (df : List Row) (events : List (ℚ × ℚ × ℚ))
    (n1 n2 : ℕ) (cols : List String) (ss : SeastatsArg) (yIdx : Option ℕ)
    (yDims : Option (ℚ × ℚ × ℚ))
    (h : ∀ ev ∈ events, locSlice df ev.1 ev.2.1 = [] ∨ locSlice df ev.2.1 ev.2.2 = []) :
    sean df events n1 n2 cols ss yIdx yDims =
      Except.error ("No objects to concatenate") := by
  have hempty := (eventLoop_all_skipped df events h 0).1
  simp only [sean, hempty, List.isEmpty_nil, if_true]

/-- C9 witness: one event whose phases are empty (empty dataset). -/
theorem claim9_witness :
    locSlice ([] : List Row) 0 1 = [] ∧
      sean [] [(0, 1, 2)] 3 3 ["v"] SeastatsArg.falseArg none none =
        Except.error ("No objects to concatenate") :=
  ⟨rfl, claim9_all_skipped_raises [] [(0, 1, 2)] 3 3 ["v"] SeastatsArg.falseArg
    none none (by with_unfolding_all decide)⟩

/-! ### Event-loop lemmas (for C4) -/

theorem eventLoop_frames_idx_indep (df : List Row) (events : List (ℚ × ℚ × ℚ)) :
    ∀ j k, (eventLoop df events j).1 = (eventLoop df events k).1 ∧
      (eventLoop df events j).2.1 = (eventLoop df events k).2.1 := by
  induction events with
  | nil => intro j k; exact ⟨rfl, rfl⟩
  | cons ev rest ih =>
    intro j k
    rcases ih (j + 1) (k + 1) with ⟨h1, h2⟩
    cases hc : ((locSlice df ev.1 ev.2.1).isEmpty ||
        (locSlice df ev.2.1 ev.2.2).isEmpty) <;>
      simp [eventLoop, hc, h1, h2]

theorem eventLoop_skip_eraseIdx (df : List Row) (events : List (ℚ × ℚ × ℚ)) :
    ∀ (i k : ℕ) (hi : i < events.length),
      (locSlice df (events.get ⟨i, hi⟩).1 (events.get ⟨i, hi⟩).2.1 = [] ∨
        locSlice df (events.get ⟨i, hi⟩).2.1 (events.get ⟨i, hi⟩).2.2 = []) →
      (eventLoop df events k).1 = (eventLoop df (events.eraseIdx i) k).1 ∧
        (eventLoop df events k).2.1 = (eventLoop df (events.eraseIdx i) k).2.1 ∧
        (k + i) ∈ (eventLoop df events k).2.2 := by
  induction events with
  | nil => intro i k hi; cases hi
  | cons ev rest ih =>
    intro i k hi hskip
    cases i with
    | zero =>
      have hcond : ((locSlice df ev.1 ev.2.1).isEmpty ||
          (locSlice df ev.2.1 ev.2.2).isEmpty) = true := by
        rcases hskip with h | h <;> simp [show locSlice df ev.1 ev.2.1 = _ ∨ _ from Or.inl rfl] <;> simp_all
      rcases eventLoop_frames_idx_indep df rest (k + 1) k with ⟨h1, h2⟩
      refine ⟨?_, ?_, ?_⟩
      · simpa [eventLoop, hcond] using h1
      · simpa [eventLoop, hcond] using h2
      · simp [eventLoop, hcond]
    | succ i2 =>
      have hi2 : i2 < rest.length := by
        simpa using Nat.lt_of_succ_lt_succ hi
      have hskip2 : locSlice df (rest.get ⟨i2, hi2⟩).1 (rest.get ⟨i2, hi2⟩).2.1 = [] ∨
          locSlice df (rest.get ⟨i2, hi2⟩).2.1 (rest.get ⟨i2, hi2⟩).2.2 = [] := hskip
      rcases ih i2 (k + 1) hi2 hskip2 with ⟨e1, e2, e3⟩
      have hplus : k + (i2 + 1) = (k + 1) + i2 := by omega
      cases hc : ((locSlice df ev.1 ev.2.1).isEmpty ||
          (locSlice df ev.2.1 ev.2.2).isEmpty) <;>
        refine ⟨?_, ?_, ?_⟩ <;>
        simp [eventLoop, hc, e1, e2, hplus, List.eraseIdx, e3]

/-! ### Claim C4 -/

/-- C4: an event whose phase-1 (or phase-2) window is empty is skipped
entirely: the collected phase-1 and phase-2 frame lists are exactly those
of the run without that event (it contributes no sample to either pooled
set and the remaining events are still processed, so nothing is raised),
and the diagnostic list contains that event's index. -/
theorem claim4_empty_phase_skips_event (df : List Row)
    (events : List (ℚ × ℚ × ℚ)) (i : ℕ) (hi : i < events.length)
    (hskip : locSlice df (events.get ⟨i, hi⟩).1 (events.get ⟨i, hi⟩).2.1 = [] ∨
      locSlice df (events.get ⟨i, hi⟩).2.1 (events.get ⟨i, hi⟩).2.2 = []) :
    (eventLoop df events 0).1 = (eventLoop df (events.eraseIdx i) 0).1 ∧
      (eventLoop df events 0).2.1 = (eventLoop df (events.eraseIdx i) 0).2.1 ∧
      i ∈ (eventLoop df events 0).2.2 := by
  have h := eventLoop_skip_eraseIdx df events i 0 hi hskip
  simpa using h

/-- C4 witness: event 0 of two events has an empty phase-1 window (the only
dataset row is at t = 5); event 1 is still processed. -/
theorem claim4_witness :
    locSlice [⟨5, [1]⟩] 0 1 = [] ∧
      ((eventLoop [⟨5, [1]⟩] [(0, 1, 2), (4, 5, 6)] 0).1 =
          (eventLoop [⟨5, [1]⟩] ([(0, 1, 2), (4, 5, 6)].eraseIdx 0) 0).1 ∧
        (eventLoop [⟨5, [1]⟩] [(0, 1, 2), (4, 5, 6)] 0).2.1 =
          (eventLoop [⟨5, [1]⟩] ([(0, 1, 2), (4, 5, 6)].eraseIdx 0) 0).2.1 ∧
        0 ∈ (eventLoop [⟨5, [1]⟩] [(0, 1, 2), (4, 5, 6)] 0).2.2) :=
  ⟨by with_unfolding_all decide,
    claim4_empty_phase_skips_event [⟨5, [1]⟩] [(0, 1, 2), (4, 5, 6)] 0 (by decide)
      (by with_unfolding_all decide)⟩

/-! ### Claim C5 -/

theorem normalizePhase_rows (phase : List Row) :
    (normalizePhase phase).map (fun nr => nr.row) = phase := by
  simp only [normalizePhase]
  rw [List.map_map]
  exact List.map_fst_zip phase _ (by rw [List.length_map, List.length_map])

/-- C5: the phase-1 window of an event is exactly the dataset rows with
timestamps in the closed interval `[t0, t1]` and phase-2 those in
`[t1, t2]` (both slices include their endpoints), so a row at exactly the
epoch `t1` appears in both phase windows and - for a processed event - in
the rows of both normalized (pooled) frames. -/
theorem claim5_inclusive_slices (df : List Row) (s e t : ℚ) (r : Row) :
    (r ∈ locSlice df s e ↔ r ∈ df ∧ s ≤ r.t ∧ r.t ≤ e) ∧
      (r ∈ df → r.t = e → s ≤ e → e ≤ t →
        r ∈ locSlice df s e ∧ r ∈ locSlice df e t ∧
          r ∈ (normalizePhase (locSlice df s e)).map (fun nr => nr.row) ∧
          r ∈ (normalizePhase (locSlice df e t)).map (fun nr => nr.row)) := by
  have hchar : ∀ a b : ℚ, r ∈ locSlice df a b ↔ r ∈ df ∧ a ≤ r.t ∧ r.t ≤ b := by
    intro a b
    unfold locSlice
    rw [List.mem_filter]
    simp
  refine ⟨hchar s e, fun hr hrt hse het => ?_⟩
  have h1 : r ∈ locSlice df s e := (hchar s e).mpr ⟨hr, by rw [hrt]; exact hse, le_of_eq hrt⟩
  have h2 : r ∈ locSlice df e t := (hchar e t).mpr ⟨hr, le_of_eq hrt.symm, by rw [hrt]; exact het⟩
  refine ⟨h1, h2, ?_, ?_⟩
  · rw [normalizePhase_rows]; exact h1
  · rw [normalizePhase_rows]; exact h2

/-- C5 witness: dataset with rows at t = 0, 1, 2 and event (0, 1, 2); the
row at the epoch t = 1 is in both phase windows. -/
theorem claim5_witness :
    ((⟨1, [20]⟩ : Row) ∈ locSlice [⟨0, [10]⟩, ⟨1, [20]⟩, ⟨2, [30]⟩] 0 1 ↔
        (⟨1, [20]⟩ : Row) ∈ [⟨0, [10]⟩, ⟨1, [20]⟩, ⟨2, [30]⟩] ∧
          (0 : ℚ) ≤ (1 : ℚ) ∧ (1 : ℚ) ≤ 1) ∧
      ((⟨1, [20]⟩ : Row) ∈ [⟨0, [10]⟩, ⟨1, [20]⟩, ⟨2, [30]⟩] → (1 : ℚ) = 1 →
        (0 : ℚ) ≤ 1 → (1 : ℚ) ≤ 2 →
        (⟨1, [20]⟩ : Row) ∈ locSlice [⟨0, [10]⟩, ⟨1, [20]⟩, ⟨2, [30]⟩] 0 1 ∧
          (⟨1, [20]⟩ : Row) ∈ locSlice [⟨0, [10]⟩, ⟨1, [20]⟩, ⟨2, [30]⟩] 1 2 ∧
          (⟨1, [20]⟩ : Row) ∈
            (normalizePhase (locSlice [⟨0, [10]⟩, ⟨1, [20]⟩, ⟨2, [30]⟩] 0 1)).map
              (fun nr => nr.row) ∧
          (⟨1, [20]⟩ : Row) ∈
            (normalizePhase (locSlice [⟨0, [10]⟩, ⟨1, [20]⟩, ⟨2, [30]⟩] 1 2)).map
              (fun nr => nr.row)) :=
  claim5_inclusive_slices [⟨0, [10]⟩, ⟨1, [20]⟩, ⟨2, [30]⟩] 0 1 2 ⟨1, [20]⟩

/-! ### Sorted-window lemmas (for C6 and C7) -/

theorem getLastD_mem_of_ne_nil {α : Type} :
    ∀ (l : List α), l ≠ [] → ∀ (d : α), l.getLastD d ∈ l := by
  intro l
  induction l with
  | nil => intro h; exact absurd rfl h
  | cons a t ih =>
    intro _ d
    rw [List.getLastD_cons]
    cases t with
    | nil => simp
    | cons b t2 => exact List.mem_cons_of_mem a (ih (by simp) a)

theorem getLastD_map_ne_nil (f : Row → ℚ) :
    ∀ (l : List Row), l ≠ [] → ∀ (d : ℚ) (d2 : Row),
      (l.map f).getLastD d = f (l.getLastD d2) := by
  intro l
  induction l with
  | nil => intro h; exact absurd rfl h
  | cons a t ih =>
    intro _ d d2
    cases t with
    | nil => rfl
    | cons b t2 =>
      show ((b :: t2).map f).getLastD (f a) = f ((b :: t2).getLastD a)
      exact ih (by simp) (f a) a

theorem sorted_head_le (l : List Row)
    (hs : l.Pairwise (fun a b => a.t ≤ b.t)) : ∀ r ∈ l, l.headI.t ≤ r.t := by
  cases l with
  | nil => intro r hr; cases hr
  | cons a t =>
    intro r hr
    rcases List.mem_cons.mp hr with rfl | hr
    · exact le_refl _
    · exact (List.pairwise_cons.mp hs).1 r hr

theorem sorted_le_getLastD :
    ∀ (l : List Row), l.Pairwise (fun a b => a.t ≤ b.t) →
      ∀ (d : Row), ∀ r ∈ l, r.t ≤ (l.getLastD d).t := by
  intro l
  induction l with
  | nil => intro _ d r hr; cases hr
  | cons a t ih =>
    intro hs d r hr
    rw [List.getLastD_cons]
    rcases List.pairwise_cons.mp hs with ⟨ha, ht⟩
    rcases List.mem_cons.mp hr with rfl | hr
    · cases t with
      | nil => exact le_refl _
      | cons b t2 => exact ha _ (getLastD_mem_of_ne_nil (b :: t2) (by simp) r)
    · cases t with
      | nil => cases hr
      | cons b t2 => exact ih ht a r hr

theorem normalizePhase_tnorm (phase : List Row) (nr : NRow)
    (h : nr ∈ normalizePhase phase) :
    ∃ r ∈ phase,
      nr.tnorm = fdiv ((r.t - phase.headI.t) -
          (phase.map (fun q => q.t - phase.headI.t)).headI)
        ((phase.map (fun q => q.t - phase.headI.t)).getLastD 0 -
          (phase.map (fun q => q.t - phase.headI.t)).headI) := by
  simp only [normalizePhase] at h
  rcases List.mem_map.mp h with ⟨p, hp, rfl⟩
  rcases p with ⟨row, tv⟩
  have hzip := List.of_mem_zip hp
  rcases List.mem_map.mp hzip.2 with ⟨x, hx, hxv⟩
  rcases List.mem_map.mp hx with ⟨r, hr, rfl⟩
  exact ⟨r, hr, hxv.symm⟩

theorem headI_elapsed_zero (phase : List Row) (hne : phase ≠ []) :
    (phase.map (fun q => q.t - phase.headI.t)).headI = 0 := by
  cases phase with
  | nil => exact absurd rfl hne
  | cons a t => simp

/-! ### Claim C6 -/

/-- C6: for a non-degenerate phase window (ordered timestamps, strictly
positive duration), every sample's normalized time
`(elapsed - elapsed.min) / (elapsed.max - elapsed.min)` is a finite value
in the closed interval `[0, 1]`.  This applies to each phase window of
each processed event, hence to every sample the event contributes to the
pooled phase-1 and phase-2 sets. -/
theorem claim6_tnorm_in_unit_interval (phase : List Row) (hne : phase ≠ [])
    (hsort : phase.Pairwise (fun a b => a.t ≤ b.t))
    (hdur : phase.headI.t < (phase.getLastD default).t) :
    (normalizePhase phase).all (fun nr => inUnitInterval nr.tnorm) = true := by
  rw [List.all_eq_true]
  intro nr hnr
  rcases normalizePhase_tnorm phase nr hnr with ⟨r, hr, hval⟩
  rw [headI_elapsed_zero phase hne,
    getLastD_map_ne_nil (fun q => q.t - phase.headI.t) phase hne 0 default] at hval
  set t0 := phase.headI.t with ht0
  set tl := (phase.getLastD default).t with htl
  have hx0 : 0 ≤ r.t - t0 := by
    have := sorted_head_le phase hsort r hr
    linarith
  have hxl : r.t - t0 ≤ tl - t0 := by
    have := sorted_le_getLastD phase hsort default r hr
    linarith
  have hden : tl - t0 - 0 ≠ 0 := by
    have : t0 < tl := hdur
    intro hc
    rw [sub_zero] at hc
    linarith
  rw [hval]
  unfold fdiv
  rw [if_neg hden]
  have hdpos : (0 : ℚ) < tl - t0 - 0 := by
    rw [sub_zero]
    linarith [hdur]
  simp only [inUnitInterval, Bool.and_eq_true, decide_eq_true_eq]
  constructor
  · exact div_nonneg (by linarith) hdpos.le
  · rw [div_le_one hdpos]
    linarith

/-- C6 witness: a 3-row ordered phase window spanning t = 0 to 2. -/
theorem claim6_witness :
    ([⟨0, [1]⟩, ⟨1, [2]⟩, ⟨2, [3]⟩] : List Row) ≠ [] ∧
      ([⟨0, [1]⟩, ⟨1, [2]⟩, ⟨2, [3]⟩] : List Row).Pairwise (fun a b => a.t ≤ b.t) ∧
      (normalizePhase [⟨0, [1]⟩, ⟨1, [2]⟩, ⟨2, [3]⟩]).all
        (fun nr => inUnitInterval nr.tnorm) = true :=
  ⟨by decide, by with_unfolding_all decide,
    claim6_tnorm_in_unit_interval [⟨0, [1]⟩, ⟨1, [2]⟩, ⟨2, [3]⟩] (by decide)
      (by with_unfolding_all decide) (by with_unfolding_all decide)⟩

/-! ### Claim C7 -/

theorem normalizePhase_degenerate_nan (phase : List Row) (hne : phase ≠ [])
    (hsort : phase.Pairwise (fun a b => a.t ≤ b.t))
    (hdeg : phase.headI.t = (phase.getLastD default).t) :
    (normalizePhase phase).all (fun nr => nr.tnorm == FVal.nan) = true := by
  rw [List.all_eq_true]
  intro nr hnr
  rcases normalizePhase_tnorm phase nr hnr with ⟨r, hr, hval⟩
  rw [headI_elapsed_zero phase hne,
    getLastD_map_ne_nil (fun q => q.t - phase.headI.t) phase hne 0 default] at hval
  have hx0 : phase.headI.t ≤ r.t := sorted_head_le phase hsort r hr
  have hxl : r.t ≤ (phase.getLastD default).t := sorted_le_getLastD phase hsort default r hr
  have hx : r.t - phase.headI.t = 0 := by
    rw [hdeg] at hx0 ⊢
    linarith
  have hl : (phase.getLastD default).t - phase.headI.t = 0 := by
    rw [hdeg]
    ring
  rw [hval, hx, hl]
  simp [fdiv]

/-- C7: an event phase with zero duration (a single row, or identical
first and last timestamps) makes the normalization divide by zero: every
one of its samples gets the non-finite normalized time NaN, which is not
special-cased or filtered; such samples fall in no bin of the binning step
(all IEEE comparisons with NaN are false), so they are silently excluded
from every statistic; and the call itself still returns normally (no
exception) whenever the event's phases are non-empty. -/
theorem claim7_degenerate_phase_nan (df : List Row) (s e t : ℚ)
    (edges : List ℚ) (i : ℕ) (n1 n2 : ℕ) (cols : List String)
    (ss : SeastatsArg) (yIdx : Option ℕ) (yDims : Option (ℚ × ℚ × ℚ))
    (hsort : df.Pairwise (fun a b => a.t ≤ b.t))
    (hp1 : locSlice df s e ≠ [])
    (hp2 : locSlice df e t ≠ [])
    (hdeg : (locSlice df s e).headI.t = ((locSlice df s e).getLastD default).t) :
    ((normalizePhase (locSlice df s e)).all (fun nr => nr.tnorm == FVal.nan) = true) ∧
      ((normalizePhase (locSlice df s e)).filter
        (fun nr => fvalInBin edges i nr.tnorm) = []) ∧
      isOkE (sean df [(s, e, t)] n1 n2 cols ss yIdx yDims) = true := by
  have hps : (locSlice df s e).Pairwise (fun a b => a.t ≤ b.t) :=
    List.Pairwise.sublist (List.filter_sublist df) hsort
  have hnan := normalizePhase_degenerate_nan (locSlice df s e) hp1 hps hdeg
  rw [List.all_eq_true] at hnan
  refine ⟨by rw [List.all_eq_true]; exact hnan, ?_, ?_⟩
  · rw [List.filter_eq_nil_iff]
    intro nr hnr
    have := hnan nr hnr
    rw [beq_iff_eq] at this
    rw [this]
    simp [fvalInBin]
  · have h1f : (locSlice df s e).isEmpty = false := by
      cases hsl : locSlice df s e with
      | nil => exact absurd hsl hp1
      | cons a l2 => rfl
    have h2f : (locSlice df e t).isEmpty = false := by
      cases hsl : locSlice df e t with
      | nil => exact absurd hsl hp2
      | cons a l2 => rfl
    cases yIdx <;> cases yDims <;>
      simp [sean, eventLoop, h1f, h2f, isOkE]

/-- C7 witness: a single-row phase window (row at t = 1, event (0, 1, 2)):
all normalized times are NaN, they fall in no bin, and the call returns
normally. -/
theorem claim7_witness :
    ((normalizePhase (locSlice [⟨1, [5]⟩] 0 1)).all
        (fun nr => nr.tnorm == FVal.nan) = true) ∧
      ((normalizePhase (locSlice [⟨1, [5]⟩] 0 1)).filter
        (fun nr => fvalInBin [0, 1 / 2, 1] 0 nr.tnorm) = []) ∧
      isOkE (sean [⟨1, [5]⟩] [(0, 1, 2)] 3 3 ["v"]
        (SeastatsArg.dictArg [("cnt", StatVal.strCount)]) none none) = true :=
  claim7_degenerate_phase_nan [⟨1, [5]⟩] 0 1 2 [0, 1 / 2, 1] 0 3 3 ["v"]
    (SeastatsArg.dictArg [("cnt", StatVal.strCount)]) none none
    (by with_unfolding_all decide) (by with_unfolding_all decide)
    (by with_unfolding_all decide) (by with_unfolding_all decide)
